import Mathlib

/-!
Verification of the publication-update pipeline in `update_publications.py`
(both the top-level and the `scripts/` variant share the functions embedded
here).  Python strings are modelled over their character lists (ASCII model
of `strip`, `lower`, `isdigit`), dictionaries with optional keys become
structures of `Option String` fields, and the fallible external fetches
become `Except` values supplied as inputs.
-/

namespace UpdatePublications

/-- Python's default `str.strip` whitespace class (ASCII part). -/
def isPyWs (c : Char) : Bool :=
  c = ' ' || c = '\t' || c = '\n' || c = '\r' || c = '\x0b' || c = '\x0c'

/-- Model of Python `str.strip()`: drop whitespace from both ends. -/
def pyStrip (s : String) : String :=
  ⟨((s.data.dropWhile isPyWs).reverse.dropWhile isPyWs).reverse⟩

/-- Model of Python `str.lower()` (ASCII model). -/
def strLower (s : String) : String :=
  ⟨s.data.map Char.toLower⟩

/-- Model of Python's `needle in hay` substring test. -/
def containsSub (needle : List Char) : List Char → Bool
  | [] => List.isPrefixOf needle []
  | c :: rest => needle.isPrefixOf (c :: rest) || containsSub needle rest

/-- Model of `re.sub(r"\s+", " ", s)`: collapse whitespace runs to one space. -/
def collapseWs : List Char → List Char
  | [] => []
  | [c] => if isPyWs c then [' '] else [c]
  | c :: d :: rest =>
    if isPyWs c && isPyWs d then collapseWs (d :: rest)
    else (if isPyWs c then ' ' else c) :: collapseWs (d :: rest)

/-- Model of Python `d.startswith(pre)`. -/
def pyStartsWith (pre s : String) : Bool :=
  List.isPrefixOf pre.data s.data

/-- Accumulator-style decimal value of a digit string (Python `int` on digits). -/
def digitsVal : Nat → List Char → Nat
  | acc, [] => acc
  | acc, c :: cs => digitsVal (10 * acc + (c.toNat - 48)) cs

/-- Model of Python `str.isdigit()` (ASCII model): nonempty and all digits. -/
def isDigitStr (s : String) : Bool :=
  !s.isEmpty && s.data.all Char.isDigit

/-- Model of `re.split(r",| and ", s)`: split at each comma or literal " and ". -/
def splitAuthors : List Char → List (List Char)
  | [] => [[]]
  | ',' :: rest => [] :: splitAuthors rest
  | ' ' :: 'a' :: 'n' :: 'd' :: ' ' :: rest => [] :: splitAuthors rest
  | c :: rest =>
    match splitAuthors rest with
    | [] => [[c]]
    | t :: ts => (c :: t) :: ts

/-- `_norm_authors`: split author string, strip tokens, drop empties. -/
def norm_authors (s : String) : List String :=
  if s = "" then []
  else ((splitAuthors s.data).map (fun t => pyStrip ⟨t⟩)).filter
    (fun a => !decide (a = ""))

/-- The `bib` dictionary of a scraped publication: optional string fields. -/
structure Bib where
  title : Option String := none
  author : Option String := none
  journal : Option String := none
  venue : Option String := none
  conference : Option String := none
  pub_year : Option String := none
  abstract : Option String := none
  doi : Option String := none
deriving DecidableEq

/-- The filled publication dictionary (`pfull`) with its URL-like fields. -/
structure PFull where
  bib : Bib := {}
  author_pub_id : Option String := none
  eprint_url : Option String := none
  pub_url : Option String := none
  author_pub_url : Option String := none
deriving DecidableEq

/-- The `bad_tokens` block list of `_pick_venue`. -/
def bad_tokens : List String :=
  ["cris pk", "cracow university of technology – cris record",
   "cracow university of technology - cris record", "cris record",
   "repository", "repozytorium", "record"]

/-- Whether a candidate's lowercase form contains some blocked token. -/
def hasBadToken (cand : String) : Bool :=
  bad_tokens.any (fun tok => containsSub tok.data (strLower cand).data)

/-- The stripped candidate fields of `_pick_venue`, in priority order. -/
def venueCandidates (bib : Bib) : List String :=
  [pyStrip (bib.journal.getD ""), pyStrip (bib.venue.getD ""),
   pyStrip (bib.conference.getD "")]

/-- The candidate loop of `_pick_venue`. -/
def pickVenueLoop : List String → String
  | [] => ""
  | cand :: rest =>
    if cand = "" then pickVenueLoop rest
    else if hasBadToken cand then pickVenueLoop rest
    else ⟨collapseWs cand.data⟩

/-- `_pick_venue`: first usable venue candidate, whitespace-collapsed. -/
def pick_venue (bib : Bib) : String :=
  pickVenueLoop (venueCandidates bib)

/-- The `for key in (...)` URL fallback loop of `_best_url`. -/
def firstUrl : List (Option String) → String
  | [] => ""
  | u :: rest => if u.getD "" = "" then firstUrl rest else u.getD ""

/-- `_best_url`: DOI (normalized) preferred, then the three URL fields. -/
def best_url (pfull : PFull) : String :=
  let doi := pyStrip (pfull.bib.doi.getD "")
  if doi = "" then
    firstUrl [pfull.eprint_url, pfull.pub_url, pfull.author_pub_url]
  else
    let d := strLower doi
    if pyStartsWith "https://doi.org/" d then doi
    else if pyStartsWith "10." d then "https://doi.org/" ++ doi
    else firstUrl [pfull.eprint_url, pfull.pub_url, pfull.author_pub_url]

/-- `_year_int`: integer year when the stripped string is all digits, else 0. -/
def year_int (bib : Bib) : Nat :=
  let y := pyStrip (bib.pub_year.getD "")
  if isDigitStr y then digitsVal 0 y.data else 0

/-- The normalized record `rec` built inside the main loop. -/
structure PubRec where
  title : String
  authors : List String
  journal : String
  year : Nat
  abstract : String
  html : String
  doi : Option String
  selected : Bool := false
deriving DecidableEq

/-- Python `str(x)` on an optional string (absent key prints as "None"). -/
def pyStrOption : Option String → String
  | none => "None"
  | some s => s

/-- Building `rec` from a filled publication whose stripped title is `title`. -/
def normalizeRecord (pfull : PFull) (title : String) : PubRec :=
  { title := title
    authors := norm_authors (pfull.bib.author.getD "")
    journal := pick_venue pfull.bib
    year := year_int pfull.bib
    abstract := pyStrip (pfull.bib.abstract.getD "")
    html := best_url pfull
    doi := if pfull.bib.doi.getD "" = "" then none else pfull.bib.doi
    selected := false }

/-- The per-record loop of `main`: each raw entry's detail fetch either
succeeds with a filled record or raises (modelled as `Except.error msg`);
failures and empty titles become skip entries, successes become records. -/
def processAll : List (Except String PFull) → List PubRec × List (String × String)
  | [] => ([], [])
  | Except.error e :: rest =>
    let r := processAll rest
    (r.1, ("exception", e) :: r.2)
  | Except.ok pfull :: rest =>
    let title := pyStrip (pfull.bib.title.getD "")
    let r := processAll rest
    if title = "" then (r.1, ("no_title", pyStrOption pfull.author_pub_id) :: r.2)
    else (normalizeRecord pfull title :: r.1, r.2)

/-- The deduplication key `(r["title"].strip().lower(), r["year"])`. -/
def recKey (r : PubRec) : String × Nat :=
  (strLower (pyStrip r.title), r.year)

/-- The dedup loop of `main`, carrying the `seen` key set. -/
def dedupLoop (seen : List (String × Nat)) : List PubRec → List PubRec
  | [] => []
  | r :: rest =>
    if recKey r ∈ seen then dedupLoop seen rest
    else r :: dedupLoop (recKey r :: seen) rest

/-- Deduplication: drop every record whose key was already seen. -/
def dedup (l : List PubRec) : List PubRec :=
  dedupLoop [] l

/-- Python string comparison: lexicographic on character code points. -/
def charsLt : List Char → List Char → Bool
  | [], [] => false
  | [], _ :: _ => true
  | _ :: _, [] => false
  | a :: as, b :: bs =>
    if a < b then true
    else if b < a then false
    else charsLt as bs

/-- Python tuple comparison `(year, title) < (year, title)`. -/
def keyLt (x y : Nat × String) : Bool :=
  decide (x.1 < y.1) || (decide (x.1 = y.1) && charsLt x.2.data y.2.data)

/-- The sort key `(r["year"], r["title"])`. -/
def sortKeyOf (r : PubRec) : Nat × String :=
  (r.year, r.title)

/-- `r` may precede `s` in the `reverse=True` sort: its key is not smaller. -/
def sortLe (r s : PubRec) : Bool :=
  !keyLt (sortKeyOf r) (sortKeyOf s)

/-- `pubs.sort(key=lambda r: (year, title), reverse=True)`. -/
def sortPubs (l : List PubRec) : List PubRec :=
  l.mergeSort sortLe

/-- `nsel = max(0, int(args.selected))`. -/
def clampSelected (n : Int) : Nat :=
  (max 0 n).toNat

/-- The selection loop: index below `nsel` means `selected = True`. -/
def markSelected (nsel : Nat) (l : List PubRec) : List PubRec :=
  l.enum.map (fun p => { p.2 with selected := decide (p.1 < nsel) })

/-- Dedup, sort and selection applied to the normalized records. -/
def finalPubs (nsel : Int) (pubs : List PubRec) : List PubRec :=
  markSelected (clampSelected nsel) (sortPubs (dedup pubs))

/-- The whole per-run pipeline from raw fetch outcomes to the written list. -/
def pipeline (nsel : Int) (raws : List (Except String PFull)) : List PubRec :=
  finalPubs nsel (processAll raws).1

/-- The validation tail of `main`: (warning printed, process exit code). -/
def finalReport (strict : Bool) (raw written : Nat) : Bool × Nat :=
  if written < raw then (true, if strict then 2 else 0) else (false, 0)

/-- Exit code of total author-resolution failure (`sys.exit(1)`). -/
def resolutionFailureExit : Nat := 1

/-- Exit code of the strict-mode validation failure (`sys.exit(2)`). -/
def validationFailureExit : Nat := 2

/-- The `basics`-filled fields consulted by the name fallback. -/
structure CandBasics where
  affiliation : Option String := none
  email_domain : Option String := none
deriving DecidableEq

/-- One candidate of `scholarly.search_author(name)`: its two fallible fills. -/
structure Cand (α : Type) where
  fillBasics : Except Unit CandBasics
  fillPubs : Except Unit α

/-- The affiliation/email filter of `fetch_author_by_name`. -/
def candMatches (rx : String → Bool) (b : CandBasics) : Bool :=
  rx (b.affiliation.getD "") || rx (b.email_domain.getD "")

/-- `fetch_author_by_name`: first candidate passing the filter whose fills
succeed; per-candidate exceptions are swallowed and the scan continues. -/
def fetch_author_by_name {α : Type} (rxOpt : Option (String → Bool)) :
    List (Cand α) → Option α
  | [] => none
  | c :: rest =>
    match c.fillBasics with
    | Except.error _ => fetch_author_by_name rxOpt rest
    | Except.ok b =>
      let ok := match rxOpt with
        | none => true
        | some rx => candMatches rx b
      if ok then
        match c.fillPubs with
        | Except.ok a => some a
        | Except.error _ => fetch_author_by_name rxOpt rest
      else fetch_author_by_name rxOpt rest

/-- The resolution block of `main` (scripts variant): id lookup first, name
fallback second, `sys.exit(1)` when both fail. -/
def resolveAuthor {α : Type} (idArg nameArg : String) (idResult : Except String α)
    (rxOpt : Option (String → Bool)) (cands : List (Cand α)) : Except Nat α :=
  let fromId : Option α :=
    if idArg = "" then none
    else match idResult with
      | Except.ok a => some a
      | Except.error _ => none
  let author : Option α :=
    match fromId with
    | some a => some a
    | none => if nameArg = "" then none else fetch_author_by_name rxOpt cands
  match author with
  | some a => Except.ok a
  | none => Except.error resolutionFailureExit

/-- Modelled from the spec's words, for comparison with `dedup`: keep each
first occurrence of a key, dropping all later records with the same key. -/
def dedupFirstWins : List PubRec → List PubRec
  | [] => []
  | r :: rest =>
    r :: dedupFirstWins (rest.filter (fun s => !decide (recKey s = recKey r)))
termination_by l => l.length
decreasing_by
  simp
  exact Nat.lt_succ_of_le (List.length_filter_le _ _)

/-- Modelled from the spec's words, for comparison with `pick_venue`: the
first nonempty non-blocked candidate, whitespace-collapsed, else empty. -/
def pickVenueFromSpec (bib : Bib) : String :=
  match (venueCandidates bib).find?
      (fun c => !decide (c = "") && !hasBadToken c) with
  | some c => ⟨collapseWs c.data⟩
  | none => ""

/-- Modelled from the spec's words, for comparison with `best_url`'s
fallback: the first nonempty string of the list, else empty. -/
def firstNonemptyString : List String → String
  | [] => ""
  | s :: rest => if s = "" then firstNonemptyString rest else s

/-! ## Venue cleaning, URL selection and author splitting -/

theorem pickVenueLoop_eq_find (cands : List String) :
    pickVenueLoop cands =
      match cands.find? (fun c => !decide (c = "") && !hasBadToken c) with
      | some c => (⟨collapseWs c.data⟩ : String)
      | none => "" := by
  induction cands with
  | nil => rfl
  | cons c rest ih =>
    by_cases h1 : c = ""
    · simp [pickVenueLoop, List.find?_cons, h1, ih]
    · by_cases h2 : hasBadToken c
      · simp [pickVenueLoop, List.find?_cons, h1, h2, ih]
      · simp [pickVenueLoop, List.find?_cons, h1, h2]

/-- Claim C4: `_pick_venue` tries journal, venue, conference in order,
rejects nonempty candidates whose lowercase form contains a block-list
token, collapses whitespace of the first accepted one, and returns the
empty string when none qualifies; on the spec's example candidates the
chosen venue is "IEEE Transactions". -/
theorem pick_venue_first_accepted (bib : Bib) :
    pick_venue bib = pickVenueFromSpec bib ∧
    pick_venue { journal := some "CRIS PK record", venue := some "IEEE Transactions",
                 conference := some "" } = "IEEE Transactions" := by
  constructor
  · rw [pick_venue, pickVenueLoop_eq_find, pickVenueFromSpec]
  · decide

theorem firstUrl_eq_firstNonempty (us : List (Option String)) :
    firstUrl us = firstNonemptyString (us.map (fun u => u.getD "")) := by
  induction us with
  | nil => rfl
  | cons u rest ih =>
    by_cases h : u.getD "" = "" <;> simp [firstUrl, firstNonemptyString, h, ih]

/-- Claim C5: `_best_url` prefers a DOI — already-prefixed DOIs are returned
unchanged, bare `10.` DOIs get the resolver prefix — and with no DOI it
returns the first nonempty of eprint, publication and author-attributed
publication URLs, else the empty string; `"10.1000/xyz"` maps to
`"https://doi.org/10.1000/xyz"`. -/
theorem best_url_preference_order (pfull : PFull) :
    (pyStartsWith "https://doi.org/" (strLower (pyStrip (pfull.bib.doi.getD ""))) = true →
      best_url pfull = pyStrip (pfull.bib.doi.getD "")) ∧
    (pyStartsWith "https://doi.org/" (strLower (pyStrip (pfull.bib.doi.getD ""))) = false →
      pyStartsWith "10." (strLower (pyStrip (pfull.bib.doi.getD ""))) = true →
      best_url pfull = "https://doi.org/" ++ pyStrip (pfull.bib.doi.getD "")) ∧
    (pyStrip (pfull.bib.doi.getD "") = "" →
      best_url pfull = firstNonemptyString
        [pfull.eprint_url.getD "", pfull.pub_url.getD "", pfull.author_pub_url.getD ""]) ∧
    best_url { bib := { doi := some "10.1000/xyz" } } = "https://doi.org/10.1000/xyz" ∧
    best_url { bib := { doi := some "https://doi.org/10.123/abc" } } =
      "https://doi.org/10.123/abc" := by
  refine ⟨?_, ?_, ?_, by decide, by decide⟩
  · intro h
    have hne : ¬ pyStrip (pfull.bib.doi.getD "") = "" := by
      intro he
      rw [he] at h
      exact absurd h (by decide)
    simp [best_url, hne, h]
  · intro h1 h2
    have hne : ¬ pyStrip (pfull.bib.doi.getD "") = "" := by
      intro he
      rw [he] at h2
      exact absurd h2 (by decide)
    simp [best_url, hne, h1, h2]
  · intro h
    simp [best_url, h, firstUrl_eq_firstNonempty]

theorem best_url_preference_order_witness :
    best_url { bib := { doi := some " https://doi.org/10.99/z " } } =
      pyStrip (some " https://doi.org/10.99/z " |>.getD "") :=
  (best_url_preference_order { bib := { doi := some " https://doi.org/10.99/z " } }).1
    (by decide)

/-- Claim C6: `_norm_authors` splits on comma or the literal " and ", trims
each token and drops empty tokens; "A, B and C" yields exactly
["A", "B", "C"] and the empty string yields the empty list. -/
theorem norm_authors_split_trim :
    norm_authors "A, B and C" = ["A", "B", "C"] ∧
    norm_authors "" = [] ∧
    ∀ s a, a ∈ norm_authors s →
      a ≠ "" ∧ ∃ t, t ∈ splitAuthors s.data ∧ a = pyStrip ⟨t⟩ := by
  refine ⟨by decide, rfl, ?_⟩
  intro s a ha
  unfold norm_authors at ha
  by_cases hs : s = ""
  · simp [hs] at ha
  · rw [if_neg hs] at ha
    have h1 := List.of_mem_filter ha
    have h2 := List.mem_of_mem_filter ha
    refine ⟨by simpa using h1, ?_⟩
    rcases List.mem_map.mp h2 with ⟨t, ht, rfl⟩
    exact ⟨t, ht, rfl⟩

theorem norm_authors_split_trim_witness :
    ("A" : String) ≠ "" ∧
    ∃ t, t ∈ splitAuthors ("A, B and C" : String).data ∧ ("A" : String) = pyStrip ⟨t⟩ :=
  norm_authors_split_trim.2.2 "A, B and C" "A" (by decide)

/-! ## Deduplication -/

theorem dedupLoop_eq_firstWins (l : List PubRec) :
    ∀ seen : List (String × Nat),
      dedupLoop seen l = dedupFirstWins (l.filter (fun r => !decide (recKey r ∈ seen))) := by
  induction l with
  | nil => intro seen; simp [dedupLoop, dedupFirstWins]
  | cons r rest ih =>
    intro seen
    by_cases h : recKey r ∈ seen
    · rw [dedupLoop, if_pos h, List.filter_cons]
      simp only [h, decide_True, Bool.not_true, Bool.false_eq_true, if_false]
      exact ih seen
    · rw [dedupLoop, if_neg h, List.filter_cons]
      simp only [h, decide_False, Bool.not_false, if_true]
      rw [dedupFirstWins, List.filter_filter]
      have hpred : ∀ x ∈ rest,
          (!decide (recKey x = recKey r) && !decide (recKey x ∈ seen)) =
            !decide (recKey x ∈ recKey r :: seen) := by
        intro x _
        by_cases h1 : recKey x = recKey r <;> by_cases h2 : recKey x ∈ seen <;>
          simp [h1, h2, List.mem_cons]
      rw [List.filter_congr hpred]
      exact congrArg (r :: ·) (ih (recKey r :: seen))

theorem dedup_eq_firstWins (l : List PubRec) : dedup l = dedupFirstWins l := by
  rw [dedup, dedupLoop_eq_firstWins l []]
  congr 1
  have : ∀ x ∈ l, (!decide (recKey x ∈ ([] : List (String × Nat)))) = true := by
    intro x _
    simp
  rw [List.filter_congr this, List.filter_true]

theorem mem_of_firstWins {a : PubRec} : ∀ {l : List PubRec}, a ∈ dedupFirstWins l → a ∈ l := by
  intro l
  induction l using dedupFirstWins.induct with
  | case1 => simp [dedupFirstWins]
  | case2 r rest ih =>
    intro h
    rw [dedupFirstWins] at h
    rcases List.mem_cons.mp h with h | h
    · exact h ▸ List.mem_cons_self _ _
    · exact List.mem_cons_of_mem _ (List.mem_of_mem_filter (ih h))

theorem pairwise_key_firstWins : ∀ l : List PubRec,
    List.Pairwise (fun a b => recKey a ≠ recKey b) (dedupFirstWins l) := by
  intro l
  induction l using dedupFirstWins.induct with
  | case1 => simp [dedupFirstWins]
  | case2 r rest ih =>
    rw [dedupFirstWins]
    refine List.Pairwise.cons ?_ ih
    intro b hb
    have := List.of_mem_filter (mem_of_firstWins hb)
    simp only [Bool.not_eq_true', decide_eq_false_iff_not] at this
    exact fun he => this (he.symm)

theorem recKey_map_markSelected (n : Nat) (l : List PubRec) :
    (markSelected n l).map recKey = l.map recKey := by
  rw [markSelected, List.map_map]
  have : (recKey ∘ fun p : Nat × PubRec => { p.2 with selected := decide (p.1 < n) }) =
      recKey ∘ Prod.snd := by
    funext p
    rfl
  rw [this, ← List.map_map, List.enum_map_snd]

/-- Claim C1: the deduplication pass keeps exactly the first record of each
(trimmed-lowercased title, year) key and drops later ones, so the final
written list carries pairwise-distinct keys. -/
theorem dedup_first_wins_key_unique (pubs : List PubRec) (n : Int) :
    dedup pubs = dedupFirstWins pubs ∧ ((finalPubs n pubs).map recKey).Nodup := by
  refine ⟨dedup_eq_firstWins pubs, ?_⟩
  have h1 : List.Pairwise (fun a b => recKey a ≠ recKey b) (dedup pubs) := by
    rw [dedup_eq_firstWins]
    exact pairwise_key_firstWins pubs
  have h2 : List.Pairwise (fun a b => recKey a ≠ recKey b) (sortPubs (dedup pubs)) :=
    h1.perm (List.mergeSort_perm (dedup pubs) sortLe).symm (fun hab => Ne.symm hab)
  show ((finalPubs n pubs).map recKey).Pairwise (· ≠ ·)
  rw [finalPubs, recKey_map_markSelected, List.pairwise_map]
  exact h2

/-! ## Sorting -/

theorem charsLt_nil_right : ∀ l : List Char, charsLt l [] = false := by
  intro l
  cases l <;> rfl

theorem charsLt_cons_iff {a b : Char} {as bs : List Char} :
    charsLt (a :: as) (b :: bs) = true ↔ a < b ∨ (a = b ∧ charsLt as bs = true) := by
  rcases lt_trichotomy a b with h | h | h
  · simp [charsLt, h]
  · subst h
    simp [charsLt, lt_irrefl]
  · have h1 : ¬ a < b := lt_asymm h
    have h2 : a ≠ b := ne_of_gt h
    simp [charsLt, h, h1, h2]

theorem charsLt_irrefl : ∀ l : List Char, charsLt l l = false := by
  intro l
  induction l with
  | nil => rfl
  | cons a as ih => simp [charsLt, lt_irrefl, ih]

theorem charsLt_trans : ∀ (l₁ l₂ l₃ : List Char),
    charsLt l₁ l₂ = true → charsLt l₂ l₃ = true → charsLt l₁ l₃ = true := by
  intro l₁
  induction l₁ with
  | nil =>
    intro l₂ l₃ h1 h2
    cases l₂ with
    | nil => simp [charsLt] at h1
    | cons b bs =>
      cases l₃ with
      | nil => rw [charsLt_nil_right] at h2; cases h2
      | cons c cs => rfl
  | cons a as ih =>
    intro l₂ l₃ h1 h2
    cases l₂ with
    | nil => rw [charsLt_nil_right] at h1; cases h1
    | cons b bs =>
      cases l₃ with
      | nil => rw [charsLt_nil_right] at h2; cases h2
      | cons c cs =>
        rcases charsLt_cons_iff.mp h1 with hab | ⟨hab, h1'⟩ <;>
          rcases charsLt_cons_iff.mp h2 with hbc | ⟨hbc, h2'⟩
        · exact charsLt_cons_iff.mpr (Or.inl (lt_trans hab hbc))
        · exact charsLt_cons_iff.mpr (Or.inl (hbc ▸ hab))
        · exact charsLt_cons_iff.mpr (Or.inl (hab ▸ hbc))
        · exact charsLt_cons_iff.mpr (Or.inr ⟨hab.trans hbc, ih bs cs h1' h2'⟩)

theorem charsLt_conn : ∀ (l₁ l₂ : List Char),
    charsLt l₁ l₂ = false → charsLt l₂ l₁ = false → l₁ = l₂ := by
  intro l₁
  induction l₁ with
  | nil =>
    intro l₂ h1 h2
    cases l₂ with
    | nil => rfl
    | cons b bs => simp [charsLt] at h1
  | cons a as ih =>
    intro l₂ h1 h2
    cases l₂ with
    | nil => simp [charsLt] at h2
    | cons b bs =>
      rcases lt_trichotomy a b with h | h | h
      · have : charsLt (a :: as) (b :: bs) = true := charsLt_cons_iff.mpr (Or.inl h)
        rw [h1] at this
        cases this
      · subst h
        have hc1 : charsLt as bs = false := by
          cases hcb : charsLt as bs
          · rfl
          · have : charsLt (a :: as) (a :: bs) = true :=
              charsLt_cons_iff.mpr (Or.inr ⟨rfl, hcb⟩)
            rw [h1] at this
            cases this
        have hc2 : charsLt bs as = false := by
          cases hcb : charsLt bs as
          · rfl
          · have : charsLt (a :: bs) (a :: as) = true :=
              charsLt_cons_iff.mpr (Or.inr ⟨rfl, hcb⟩)
            rw [h2] at this
            cases this
        rw [ih bs hc1 hc2]
      · have : charsLt (b :: bs) (a :: as) = true := charsLt_cons_iff.mpr (Or.inl h)
        rw [h2] at this
        cases this

theorem keyLt_iff {x y : Nat × String} :
    keyLt x y = true ↔ x.1 < y.1 ∨ (x.1 = y.1 ∧ charsLt x.2.data y.2.data = true) := by
  simp [keyLt]

theorem keyLt_trans {x y z : Nat × String} :
    keyLt x y = true → keyLt y z = true → keyLt x z = true := by
  intro h1 h2
  rcases keyLt_iff.mp h1 with h | ⟨he, hc⟩ <;> rcases keyLt_iff.mp h2 with h' | ⟨he', hc'⟩
  · exact keyLt_iff.mpr (Or.inl (Nat.lt_trans h h'))
  · exact keyLt_iff.mpr (Or.inl (he' ▸ h))
  · exact keyLt_iff.mpr (Or.inl (he ▸ h'))
  · exact keyLt_iff.mpr (Or.inr ⟨he.trans he', charsLt_trans _ _ _ hc hc'⟩)

theorem keyLt_irrefl (x : Nat × String) : keyLt x x = false := by
  cases h : keyLt x x
  · rfl
  · rcases keyLt_iff.mp h with h' | ⟨_, h'⟩
    · exact absurd h' (Nat.lt_irrefl _)
    · rw [charsLt_irrefl] at h'
      cases h'

theorem keyLt_asymm {x y : Nat × String} (h : keyLt x y = true) : keyLt y x = false := by
  cases h2 : keyLt y x
  · rfl
  · have := keyLt_trans h h2
    rw [keyLt_irrefl] at this
    cases this

theorem keyLt_conn {x y : Nat × String}
    (h1 : keyLt x y = false) (h2 : keyLt y x = false) : x = y := by
  rcases Nat.lt_trichotomy x.1 y.1 with h | h | h
  · have := keyLt_iff.mpr (Or.inl h)
    rw [h1] at this
    cases this
  · have hc1 : charsLt x.2.data y.2.data = false := by
      cases hcb : charsLt x.2.data y.2.data
      · rfl
      · have := keyLt_iff.mpr (Or.inr ⟨h, hcb⟩)
        rw [h1] at this
        cases this
    have hc2 : charsLt y.2.data x.2.data = false := by
      cases hcb : charsLt y.2.data x.2.data
      · rfl
      · have := keyLt_iff.mpr (Or.inr ⟨h.symm, hcb⟩)
        rw [h2] at this
        cases this
    exact Prod.ext h (String.ext (charsLt_conn _ _ hc1 hc2))
  · have := keyLt_iff.mpr (Or.inl h)
    rw [h2] at this
    cases this

theorem sortLe_trans : ∀ (a b c : PubRec),
    sortLe a b = true → sortLe b c = true → sortLe a c = true := by
  intro a b c h1 h2
  rw [sortLe, Bool.not_eq_true'] at h1 h2 ⊢
  cases hba : keyLt (sortKeyOf b) (sortKeyOf a)
  · rw [keyLt_conn h1 hba]
    exact h2
  · cases hac : keyLt (sortKeyOf a) (sortKeyOf c)
    · rfl
    · have := keyLt_trans hba hac
      rw [h2] at this
      cases this

theorem sortLe_total : ∀ (a b : PubRec), (sortLe a b || sortLe b a) = true := by
  intro a b
  rw [sortLe, sortLe]
  cases h : keyLt (sortKeyOf a) (sortKeyOf b)
  · simp
  · rw [keyLt_asymm h]
    simp

/-- Claim C2: the sort step permutes the deduplicated list into descending
(year, title) order — newest year first, reverse-lexicographic titles within
a year — so every zero-year (unknown-year) record sorts after all
positive-year records, and an unparseable year string is normalized to 0. -/
theorem sort_descending_year_title (l : List PubRec) :
    (sortPubs l).Perm l ∧
    List.Pairwise (fun a b => sortLe a b = true) (sortPubs l) ∧
    List.Pairwise (fun a b => a.year = 0 → b.year = 0) (sortPubs l) ∧
    ∀ bib : Bib, isDigitStr (pyStrip (bib.pub_year.getD "")) = false → year_int bib = 0 := by
  have hperm := List.mergeSort_perm l sortLe
  have hsorted := List.sorted_mergeSort sortLe_trans sortLe_total l
  refine ⟨hperm, hsorted, ?_, ?_⟩
  · refine hsorted.imp ?_
    intro a b hab hya
    rw [sortLe, Bool.not_eq_true'] at hab
    by_contra hb
    have : keyLt (sortKeyOf a) (sortKeyOf b) = true := by
      refine keyLt_iff.mpr (Or.inl ?_)
      show a.year < b.year
      rw [hya]
      exact Nat.pos_of_ne_zero hb
    rw [hab] at this
    cases this
  · intro bib h
    simp [year_int, h]

theorem sort_descending_year_title_witness :
    year_int { pub_year := some " 202x " } = 0 :=
  (sort_descending_year_title []).2.2.2 { pub_year := some " 202x " } (by decide)

/-! ## Selection -/

theorem markSelected_length (n : Nat) (l : List PubRec) :
    (markSelected n l).length = l.length := by
  simp [markSelected]

/-- Claim C3: after clamping the selection parameter to be non-negative,
exactly the records at the first min(max(0, N), length) positions of the
sorted list are flagged selected and every later one is flagged false, the
rest of each record being unchanged. -/
theorem selection_marks_first_n (l : List PubRec) (n : Int) (i : Nat) (r : PubRec)
    (h : l[i]? = some r) :
    (markSelected (clampSelected n) l).length = l.length ∧
    (markSelected (clampSelected n) l)[i]? =
      some { r with selected := decide (i < min (clampSelected n) l.length) } := by
  refine ⟨markSelected_length _ l, ?_⟩
  have hi : i < l.length := by
    rcases List.getElem?_eq_some.mp h with ⟨hlen, _⟩
    exact hlen
  have hdec : decide (i < min (clampSelected n) l.length) = decide (i < clampSelected n) :=
    decide_eq_decide.mpr ⟨fun hm => (Nat.lt_min.mp hm).1, fun hc => Nat.lt_min.mpr ⟨hc, hi⟩⟩
  rw [hdec, markSelected, List.getElem?_map, List.getElem?_enum, h]
  rfl

theorem selection_marks_first_n_witness :
    (markSelected (clampSelected 2)
        [⟨"A", [], "", 2022, "", "", none, false⟩,
         ⟨"B", [], "", 2021, "", "", none, false⟩,
         ⟨"C", [], "", 2020, "", "", none, false⟩]).length =
      ([⟨"A", [], "", 2022, "", "", none, false⟩,
        ⟨"B", [], "", 2021, "", "", none, false⟩,
        ⟨"C", [], "", 2020, "", "", none, false⟩] : List PubRec).length ∧
    (markSelected (clampSelected 2)
        [⟨"A", [], "", 2022, "", "", none, false⟩,
         ⟨"B", [], "", 2021, "", "", none, false⟩,
         ⟨"C", [], "", 2020, "", "", none, false⟩])[2]? =
      some { (⟨"C", [], "", 2020, "", "", none, false⟩ : PubRec) with
             selected := decide (2 < min (clampSelected 2)
               ([⟨"A", [], "", 2022, "", "", none, false⟩,
                 ⟨"B", [], "", 2021, "", "", none, false⟩,
                 ⟨"C", [], "", 2020, "", "", none, false⟩] : List PubRec).length) } :=
  selection_marks_first_n
    [⟨"A", [], "", 2022, "", "", none, false⟩,
     ⟨"B", [], "", 2021, "", "", none, false⟩,
     ⟨"C", [], "", 2020, "", "", none, false⟩] 2 2
    ⟨"C", [], "", 2020, "", "", none, false⟩ (by decide)

/-! ## Per-record processing -/

theorem processAll_append (l1 l2 : List (Except String PFull)) :
    processAll (l1 ++ l2) =
      ((processAll l1).1 ++ (processAll l2).1, (processAll l1).2 ++ (processAll l2).2) := by
  induction l1 with
  | nil => simp [processAll]
  | cons x rest ih =>
    cases x with
    | error e => simp [processAll, ih]
    | ok pf =>
      by_cases h : pyStrip (pf.bib.title.getD "") = "" <;> simp [processAll, h, ih]

/-- Claim C7 (amended): each raw record is processed in isolation — an
exception while fetching one record is recorded as an "exception" skip and
the remaining records are still processed, and a record whose title strips
to empty (or is missing) is skipped with reason "no_title" instead of being
written. -/
theorem per_record_isolation :
    (∀ l1 l2 : List (Except String PFull),
        processAll (l1 ++ l2) =
          ((processAll l1).1 ++ (processAll l2).1,
           (processAll l1).2 ++ (processAll l2).2)) ∧
    (∀ e : String, processAll [Except.error e] = ([], [("exception", e)])) ∧
    (∀ pfull : PFull, pyStrip (pfull.bib.title.getD "") = "" →
        processAll [Except.ok pfull] =
          ([], [("no_title", pyStrOption pfull.author_pub_id)])) := by
  refine ⟨processAll_append, fun e => rfl, fun pf h => ?_⟩
  simp [processAll, h]

theorem per_record_isolation_witness :
    processAll [Except.ok ({} : PFull)] = ([], [("no_title", "None")]) :=
  per_record_isolation.2.2 {} rfl

/-- Claim C7, as stated, is false on the code: the reason string recorded
for a missing title is "no_title", not "no title". -/
theorem skip_reason_label_cex :
    (processAll [Except.ok ({} : PFull)]).2 = [("no_title", "None")] ∧
    ¬ (processAll [Except.ok ({} : PFull)]).2 = [("no title", "None")] := by
  constructor <;> decide

/-! ## Validation and counts -/

theorem processAll_count (raws : List (Except String PFull)) :
    (processAll raws).1.length + (processAll raws).2.length = raws.length := by
  induction raws with
  | nil => rfl
  | cons x rest ih =>
    cases x with
    | error e =>
      simp only [processAll, List.length_cons]
      omega
    | ok pf =>
      by_cases h : pyStrip (pf.bib.title.getD "") = "" <;>
        simp only [processAll, h, if_true, if_false, List.length_cons, reduceIte] <;>
        omega

theorem dedupLoop_sublist (l : List PubRec) :
    ∀ seen : List (String × Nat), (dedupLoop seen l).Sublist l := by
  induction l with
  | nil => intro seen; simp [dedupLoop]
  | cons r rest ih =>
    intro seen
    by_cases h : recKey r ∈ seen
    · rw [dedupLoop, if_pos h]
      exact (ih seen).cons r
    · rw [dedupLoop, if_neg h]
      exact (ih (recKey r :: seen)).cons₂ r

/-- Claim C10: each raw entry contributes to exactly one of the written and
skipped lists, and deduplication only removes records, so the number of
written records never exceeds the raw count. -/
theorem written_le_raw (nsel : Int) (raws : List (Except String PFull)) :
    (processAll raws).1.length + (processAll raws).2.length = raws.length ∧
    (pipeline nsel raws).length ≤ raws.length := by
  refine ⟨processAll_count raws, ?_⟩
  rw [pipeline, finalPubs, markSelected_length, sortPubs,
    (List.mergeSort_perm (dedup (processAll raws).1) sortLe).length_eq]
  calc (dedup (processAll raws).1).length
      ≤ (processAll raws).1.length := (dedupLoop_sublist _ []).length_le
    _ ≤ raws.length := by
        have := processAll_count raws
        omega

/-- Claim C8: whenever fewer records were written than the source reported,
the warning is emitted; with `--strict` the process exits with the
validation-failure code 2 (distinct from the resolution-failure code 1),
and without `--strict` it exits 0 despite the shortfall. -/
theorem strict_shortfall_exit (strict : Bool) (raw written : Nat) (h : written < raw) :
    (finalReport strict raw written).1 = true ∧
    (finalReport true raw written).2 = validationFailureExit ∧
    (finalReport false raw written).2 = 0 ∧
    validationFailureExit = 2 ∧ validationFailureExit ≠ resolutionFailureExit := by
  refine ⟨?_, ?_, ?_, rfl, by decide⟩ <;> simp [finalReport, h, validationFailureExit]

theorem strict_shortfall_exit_witness :
    (finalReport true 3 1).1 = true :=
  (strict_shortfall_exit true 3 1 (by decide)).1

/-! ## Author resolution -/

/-- Claim C9: the resolver tries the id lookup first and returns its result
untouched on success; only when that lookup fails (or no id is given) and a
name is supplied does the search-by-name flow run, returning the first
candidate whose affiliation or contact-domain field matches the pattern;
when neither path yields an author it fails with exit code 1. -/
theorem resolver_fallback_order {α : Type} (idArg nameArg : String)
    (idResult : Except String α) (rx : String → Bool) (cands : List (Cand α)) :
    (∀ a : α, idArg ≠ "" → idResult = Except.ok a →
        resolveAuthor idArg nameArg idResult (some rx) cands = Except.ok a) ∧
    ((idArg = "" ∨ ∃ e, idResult = Except.error e) → nameArg ≠ "" →
        resolveAuthor idArg nameArg idResult (some rx) cands =
          (match fetch_author_by_name (some rx) cands with
           | some a => Except.ok a
           | none => Except.error resolutionFailureExit)) ∧
    (∀ pairs : List (CandBasics × α),
        fetch_author_by_name (some rx)
            (pairs.map (fun q => (⟨Except.ok q.1, Except.ok q.2⟩ : Cand α))) =
          Option.map Prod.snd (pairs.find? (fun q => candMatches rx q.1))) ∧
    ((idArg = "" ∨ ∃ e, idResult = Except.error e) →
     (nameArg = "" ∨ fetch_author_by_name (some rx) cands = none) →
        resolveAuthor idArg nameArg idResult (some rx) cands =
          Except.error resolutionFailureExit) ∧
    resolutionFailureExit = 1 := by
  refine ⟨?_, ?_, ?_, ?_, rfl⟩
  · intro a hid hok
    simp [resolveAuthor, hid, hok]
  · intro hfail hname
    rcases hfail with h | ⟨e, he⟩
    · simp only [resolveAuthor, h, if_true, hname, if_false, reduceIte]
    · by_cases hid : idArg = "" <;>
        simp only [resolveAuthor, hid, he, if_true, if_false, hname, reduceIte]
  · intro pairs
    induction pairs with
    | nil => rfl
    | cons q rest ih =>
      by_cases hm : candMatches rx q.1 <;>
        simp [fetch_author_by_name, List.find?_cons, hm, ih]
  · intro hfail hnone
    rcases hfail with h | ⟨e, he⟩ <;> rcases hnone with h2 | h2 <;>
      first
        | simp [resolveAuthor, h, h2]
        | (by_cases hid : idArg = "" <;> simp [resolveAuthor, hid, he, h2])

theorem resolver_fallback_order_witness :
    resolveAuthor "id1" "" (Except.ok (5 : Nat)) (some (fun _ => true)) [] =
      Except.ok 5 :=
  (resolver_fallback_order "id1" "" (Except.ok 5) (fun _ => true) []).1 5 (by decide) rfl

end UpdatePublications
